import Mathlib

/-!
# Frame2IMG — verification of the frame-extraction engine

Shallow embedding of the extraction-relevant logic of `src/app.py`
(`FrameExtractorWorker`) and `src/frame_extractor_app.py`
(`FrameExtractorApp._threaded_start_processing`), together with proofs of
the planner, allocator, backend and orchestrator properties stated in the
specification.

Modelling conventions:
* Python floats are modelled as exact rationals (`ℚ`); Python's `round`
  (banker's rounding, round-half-to-even) is `pyround`.
* `Optional[float]` is `Option ℚ`; Python truthiness of a float `x`
  (`if x:`) is `x ≠ 0`, of an optional it is "is `some` and `≠ 0`" where the
  code relies on it.
* External effects (ffprobe output, the OpenCV capture, the FFmpeg process's
  stdout, the filesystem) enter as explicit inputs of the model.
* The Qt signals `message` / `progress` / `finished` / `error` are modelled
  as an ordered event list (`Ev`).
-/

namespace Frame2IMG

/-- Python's built-in `round`: round half to even (banker's rounding). -/
def pyround (x : ℚ) : ℤ :=
  let f := ⌊x⌋
  let r := x - f
  if r < 1/2 then f
  else if 1/2 < r then f + 1
  else if f % 2 = 0 then f else f + 1

/-- Python `str.lower()` (character-wise lowercasing). -/
def strLower (s : String) : String := ⟨s.data.map Char.toLower⟩

/-- Python `str.strip()`: remove leading and trailing whitespace. -/
def strStrip (s : String) : String :=
  ⟨((s.data.dropWhile Char.isWhitespace).reverse.dropWhile
    Char.isWhitespace).reverse⟩

/-- `FrameExtractorWorker.__init__` (src/app.py:392-397): normalisation of the
`out_format` argument.  `(out_format or "png").strip().lower()`, then `jpg`
and `jpeg` collapse to `"jpeg"`, and anything that is not `"png"` becomes
`"png"`. -/
def normalizeFormat (s : String) : String :=
  let of := strLower (strStrip (if s = "" then "png" else s))
  if of = "jpg" ∨ of = "jpeg" then "jpeg"
  else if of ≠ "png" then "png"
  else of

/-- The normalised option fields of `FrameExtractorWorker` after
`__init__` (src/app.py:382-401). -/
structure WorkerConfig where
  start_time : Option ℚ
  end_time : Option ℚ
  precision_count : Bool
  out_format : String
  jpeg_quality : ℤ
  sample_every_n : ℤ
  sample_every_t : ℚ
  deriving Repr, DecidableEq

/-- `FrameExtractorWorker.__init__` (src/app.py:382-401): stores the time
range and precision flag unchanged and normalises format, quality and the
two sampling options. -/
def initWorker (start_time end_time : Option ℚ) (precision_count : Bool)
    (out_format : String) (jpeg_quality : ℤ) (sample_every_n : ℤ)
    (sample_every_t : ℚ) : WorkerConfig :=
  { start_time := start_time
    end_time := end_time
    precision_count := precision_count
    out_format := normalizeFormat out_format
    jpeg_quality := max 1 (min 100 jpeg_quality)
    sample_every_n := max 1 sample_every_n
    sample_every_t := max 0 sample_every_t }

/-- The fields of the dict returned by `probe_video_metadata_with_ffprobe`
that `FrameExtractorWorker.run` reads (src/app.py:131-208): `frames` is `0`
when unknown, `duration` and `fps` are `None` when unknown. -/
structure Meta where
  frames : ℕ
  duration : Option ℚ
  fps : Option ℚ
  deriving Repr, DecidableEq

/-- src/app.py:611: `start_s = self.start_time or 0.0`. -/
def startS (w : WorkerConfig) : ℚ := w.start_time.getD 0

/-- src/app.py:612: `end_s = self.end_time if (self.end_time is not None and
(self.end_time > start_s)) else None` — an end time at or before the start
is silently dropped. -/
def endS (w : WorkerConfig) : Option ℚ :=
  match w.end_time with
  | some e => if startS w < e then some e else none
  | none => none

/-- src/app.py:604-609: the whole-video frame count, preferring the precise
ffprobe recount when `precision_count` is set, else the probed `frames`. -/
def totalFull (w : WorkerConfig) (meta : Meta) (precise : ℕ) : ℕ :=
  let t := if w.precision_count then precise else 0
  if t = 0 then meta.frames else t

/-- src/app.py:616: `sf = int(max(0, round(start_s * fps_val)))`. -/
def startFrame (w : WorkerConfig) (fps : ℚ) : ℤ :=
  max 0 (pyround (startS w * fps))

/-- src/app.py:614-620 (reused with the OpenCV total at 630-638): the
windowed frame count for a given fps and total —
`max(0, ef - sf)` with `ef = round(end_s * fps)` when an end is set (else
`total`), clamped to `total` when `total` is positive. -/
def firWith (w : WorkerConfig) (fps : ℚ) (total : ℤ) : ℤ :=
  let ef0 : ℤ :=
    match endS w with
    | some e => pyround (e * fps)
    | none => total
  let ef := if 0 < total then min ef0 total else ef0
  max 0 (ef - startFrame w fps)

/-- src/app.py:610-644: `frames_in_range`.  The primary computation uses the
probed fps and `total_full`; when the result is not positive the worker
falls back to the OpenCV-reported frame count (`cvCount`, `none` when the
capture cannot be opened). -/
def framesInRange (w : WorkerConfig) (meta : Meta) (total_full : ℕ)
    (cvCount : Option ℤ) : ℤ :=
  let primary : ℤ :=
    match meta.fps with
    | some fps =>
      if (w.start_time.isSome ∨ (endS w).isSome) ∧ fps ≠ 0 then
        firWith w fps (total_full : ℤ)
      else (total_full : ℤ)
    | none => (total_full : ℤ)
  if primary ≤ 0 then
    match cvCount with
    | none => 0
    | some cv =>
      if 0 < cv then
        match meta.fps with
        | some fps =>
          if (w.start_time.isSome ∨ (endS w).isSome) ∧ fps ≠ 0 then
            firWith w fps cv
          else cv
        | none => cv
      else 0
  else primary

/-- src/app.py:646-672: `frames_planned` — sampling adjustment of
`frames_in_range`.  A positive `sample_every_t` takes the time-based branch;
otherwise `sample_every_n > 1` takes the every-N branch; otherwise the count
is unchanged. -/
def framesPlanned (w : WorkerConfig) (meta : Meta) (frames_in_range : ℤ) : ℤ :=
  if 0 < w.sample_every_t then
    let window_dur : Option ℚ :=
      match endS w with
      | some e => some (max 0 (e - startS w))
      | none =>
        match meta.duration with
        | some d => some (max 0 (d - startS w))
        | none => none
    match window_dur with
    | some wd =>
      if 0 < wd then max 1 (⌊wd / w.sample_every_t⌋ + 1) else 0
    | none => 0
  else if 1 < w.sample_every_n ∧ 0 < frames_in_range then
    ⌈(frames_in_range : ℚ) / (w.sample_every_n : ℚ)⌉
  else frames_in_range

/-- src/app.py:685: filename zero-padding width. -/
def padWidth (frames_planned : ℤ) : ℕ :=
  if 0 < frames_planned then (toString frames_planned).length else 6

/-! ## Output location allocator (src/app.py:674-682)

Directory names are modelled as the strings the code builds; the filesystem
is the list `fs` of directory names that already exist inside the chosen
output root (`out_dir.exists()` is membership in `fs`). -/

/-- One decimal digit rendered as a character (helper for `natStr`). -/
def digitCh (d : ℕ) : Char :=
  match d with
  | 0 => '0'
  | 1 => '1'
  | 2 => '2'
  | 3 => '3'
  | 4 => '4'
  | 5 => '5'
  | 6 => '6'
  | 7 => '7'
  | 8 => '8'
  | 9 => '9'
  | _ => '?'

/-- Inverse of `digitCh` on decimal digits. -/
def chVal (c : Char) : ℕ := c.toNat - 48

/-- Decimal rendering of a natural number, as Python's f-string interpolation
of an `int` produces it: most-significant digit first, `"0"` for zero. -/
def natStr (n : ℕ) : String :=
  if n = 0 then "0" else ⟨((Nat.digits 10 n).map digitCh).reverse⟩

theorem chVal_digitCh {d : ℕ} (hd : d < 10) : chVal (digitCh d) = d := by
  interval_cases d <;> rfl

theorem natStr_decode (n : ℕ) :
    Nat.ofDigits 10 (((natStr n).data.reverse).map chVal) = n := by
  by_cases h : n = 0
  · subst h; rfl
  · have hdata : (natStr n).data = ((Nat.digits 10 n).map digitCh).reverse := by
      rw [natStr, if_neg h]
    rw [hdata, List.reverse_reverse, List.map_map]
    have hcongr : (Nat.digits 10 n).map (chVal ∘ digitCh) = Nat.digits 10 n := by
      conv_rhs => rw [← List.map_id (Nat.digits 10 n)]
      refine List.map_congr_left fun d hd => ?_
      simp only [Function.comp_apply, id_eq]
      exact chVal_digitCh (Nat.digits_lt_base (by norm_num) hd)
    rw [hcongr, Nat.ofDigits_digits]

theorem natStr_injective : Function.Injective natStr := by
  have hinv : Function.LeftInverse
      (fun s : String => Nat.ofDigits 10 (s.data.reverse.map chVal)) natStr :=
    fun n => natStr_decode n
  exact hinv.injective

theorem natStr_length_pos (n : ℕ) : 0 < (natStr n).length := by
  by_cases h : n = 0
  · subst h; decide
  · have hdata : (natStr n).data = ((Nat.digits 10 n).map digitCh).reverse := by
      rw [natStr, if_neg h]
    have : (Nat.digits 10 n) ≠ [] := Nat.digits_ne_nil_iff_ne_zero.mpr h
    simp [String.length, hdata]
    exact List.length_pos.mpr this

/-- src/app.py:675,680: the candidate directory names tried by the
allocator, in order: `<stem>_frames`, then `<stem>_frames_1`, `_2`, …. -/
def allocCandidate (stem : String) : ℕ → String
  | 0 => stem ++ "_frames"
  | k + 1 => stem ++ "_frames_" ++ natStr (k + 1)

theorem string_append_cancel_left {a b c : String} (h : a ++ b = a ++ c) :
    b = c := by
  apply String.ext
  have h2 := congrArg String.data h
  simp only [String.data_append] at h2
  exact List.append_cancel_left h2

theorem allocCandidate_injective (stem : String) :
    Function.Injective (allocCandidate stem) := by
  have hlen : ∀ k : ℕ, (stem ++ "_frames").length ≠
      (stem ++ "_frames_" ++ natStr (k + 1)).length := by
    intro k
    have hp := natStr_length_pos (k + 1)
    simp only [String.length_append]
    have h7 : ("_frames" : String).length = 7 := by decide
    have h8 : ("_frames_" : String).length = 8 := by decide
    omega
  intro j k h
  match j, k with
  | 0, 0 => rfl
  | 0, k + 1 => exact absurd (congrArg String.length h) (hlen k)
  | j + 1, 0 => exact absurd (congrArg String.length h.symm) (hlen j)
  | j + 1, k + 1 =>
    simp only [allocCandidate, String.append_assoc] at h
    have h2 := string_append_cancel_left h
    have h3 := string_append_cancel_left h2
    have := natStr_injective h3
    omega

/-- src/app.py:677-681: the existence-probing loop.  `fuel` bounds the number
of `while` iterations; `allocate` supplies enough fuel that the loop always
ends at a name that is not in `fs`. -/
def allocAux (fs : List String) (stem : String) : ℕ → ℕ → String
  | 0, k => allocCandidate stem k
  | fuel + 1, k =>
    if allocCandidate stem k ∈ fs then allocAux fs stem fuel (k + 1)
    else allocCandidate stem k

/-- src/app.py:674-682: the output location allocator.  Starting from
`<stem>_frames` it walks the numbered candidates until one does not exist,
then creates that directory (`mkdir(parents=True, exist_ok=True)`). -/
def allocate (fs : List String) (stem : String) : String :=
  allocAux fs stem (fs.length + 1) 0

theorem allocAux_spec (fs : List String) (stem : String) :
    ∀ fuel k, (∃ j, k ≤ j ∧ j < k + fuel ∧ allocCandidate stem j ∉ fs) →
      ∃ m, allocAux fs stem fuel k = allocCandidate stem m ∧ k ≤ m ∧
        allocCandidate stem m ∉ fs ∧
        ∀ i, k ≤ i → i < m → allocCandidate stem i ∈ fs := by
  intro fuel
  induction fuel with
  | zero => intro k ⟨j, hj1, hj2, _⟩; omega
  | succ fuel ih =>
    intro k ⟨j, hj1, hj2, hj3⟩
    by_cases hk : allocCandidate stem k ∈ fs
    · have hjk : j ≠ k := fun he => hj3 (he ▸ hk)
      obtain ⟨m, hm1, hm2, hm3, hm4⟩ :=
        ih (k + 1) ⟨j, by omega, by omega, hj3⟩
      refine ⟨m, ?_, by omega, hm3, ?_⟩
      · simp only [allocAux, if_pos hk]; exact hm1
      · intro i hi1 hi2
        rcases Nat.eq_or_lt_of_le hi1 with rfl | hlt
        · exact hk
        · exact hm4 i hlt hi2
    · exact ⟨k, by simp only [allocAux, if_neg hk], le_refl k, hk,
        fun i hi1 hi2 => absurd (lt_of_le_of_lt hi1 hi2) (lt_irrefl k)⟩

theorem exists_candidate_not_mem (fs : List String) (stem : String) :
    ∃ j, j ≤ fs.length ∧ allocCandidate stem j ∉ fs := by
  by_contra hall
  push_neg at hall
  have hsub : ∀ x ∈ (List.range (fs.length + 1)).map (allocCandidate stem),
      x ∈ fs := by
    intro x hx
    simp only [List.mem_map, List.mem_range] at hx
    obtain ⟨j, hj, rfl⟩ := hx
    exact hall j (by omega)
  have hnd : ((List.range (fs.length + 1)).map (allocCandidate stem)).Nodup :=
    (List.nodup_range _).map (allocCandidate_injective stem)
  have hcard :
      ((List.range (fs.length + 1)).map (allocCandidate stem)).toFinset.card =
        fs.length + 1 := by
    rw [List.toFinset_card_of_nodup hnd, List.length_map, List.length_range]
  have hle : ((List.range (fs.length + 1)).map
      (allocCandidate stem)).toFinset.card ≤ fs.toFinset.card := by
    apply Finset.card_le_card
    intro x hx
    rw [List.mem_toFinset] at hx ⊢
    exact hsub x hx
  have := List.toFinset_card_le fs
  omega

theorem allocate_spec (fs : List String) (stem : String) :
    ∃ m, allocate fs stem = allocCandidate stem m ∧
      allocCandidate stem m ∉ fs ∧
      ∀ i, i < m → allocCandidate stem i ∈ fs := by
  obtain ⟨j, hj1, hj2⟩ := exists_candidate_not_mem fs stem
  obtain ⟨m, hm1, _, hm3, hm4⟩ :=
    allocAux_spec fs stem (fs.length + 1) 0 ⟨j, Nat.zero_le j, by omega, hj2⟩
  exact ⟨m, hm1, hm3, fun i hi => hm4 i (Nat.zero_le i) hi⟩

theorem allocate_not_mem (fs : List String) (stem : String) :
    allocate fs stem ∉ fs := by
  obtain ⟨m, hm1, hm2, _⟩ := allocate_spec fs stem
  rw [hm1]; exact hm2

/-! ## Events, backends and the orchestrator (src/app.py:376-847) -/

/-- The user-visible status messages the worker emits, by emission site. -/
inductive MsgKind where
  /-- "Using FFmpeg (NVDEC) for GPU-accelerated decoding…" (src/app.py:514) -/
  | usingNvdec
  /-- "FFmpeg GPU path failed, falling back to CPU (OpenCV)…" (src/app.py:704) -/
  | fallback
  /-- "Starting extraction…" (src/app.py:728) -/
  | starting
  /-- "Canceled by user." (src/app.py:693 and 821) -/
  | canceledByUser
  /-- "Done." (src/app.py:698 and 828) -/
  | done
  deriving Repr, DecidableEq

/-- One emitted Qt signal of the worker, in emission order. -/
inductive Ev where
  | msg (k : MsgKind)
  | progress (cur total : ℤ)
  | finished (success canceled : Bool) (saved : ℤ)
  | error
  deriving Repr, DecidableEq

/-- One decoded frame of the software loop: the `CAP_PROP_POS_MSEC` value
observed for it (`none` when `cap.get` raises) and whether `cv2.imwrite`
would succeed for it. -/
structure SwFrame where
  pos_ms : Option ℚ
  write_ok : Bool
  deriving Repr, DecidableEq

/-- The values the software loop closes over (src/app.py:707-762). -/
structure SwParams where
  sample_every_t : ℚ
  sample_every_n : ℤ
  start_time : Option ℚ
  end_time : Option ℚ
  fps_eff : Option ℚ
  frames_planned : ℤ
  frames_in_range : ℤ
  deriving Repr, DecidableEq

/-- src/app.py:737-746: effective fps — the probed fps when positive, else
the OpenCV-reported fps when positive, else unknown. -/
def fpsEff (fps_val capFps : Option ℚ) : Option ℚ :=
  let fallbackFps : Option ℚ :=
    match capFps with
    | some g => if g ≤ 0 then none else some g
    | none => none
  match fps_val with
  | some f => if f ≤ 0 then fallbackFps else some f
  | none => fallbackFps

/-- src/app.py:747-754: `end_limit_frames` (set only when `end_time` is
truthy, exceeds the start, and an effective fps is known). -/
def endLimitFrames (p : SwParams) : Option ℤ :=
  match p.end_time with
  | some e =>
    if e ≠ 0 ∧ p.start_time.getD 0 < e then
      match p.fps_eff with
      | some f => if f = 0 then none else some (pyround ((e - p.start_time.getD 0) * f))
      | none => none
    else none
  | none => none

/-- src/app.py:748,755: `end_limit_ms`. -/
def endLimitMs (p : SwParams) : Option ℚ :=
  match p.end_time with
  | some e =>
    if e ≠ 0 ∧ p.start_time.getD 0 < e then some (e * 1000) else none
  | none => none

/-- src/app.py:756-762: initial value of `next_ms` — anchored to the
requested start time whenever time-based sampling is active. -/
def initNextMs (p : SwParams) : Option ℚ :=
  if 0 < p.sample_every_t then some (p.start_time.getD 0 * 1000) else none

/-- The mutable locals of the software loop, plus the artefacts it produces:
`names` is the list of filename indices in saved order, `events` the signals
emitted so far. -/
structure SwState where
  frame_index : ℕ
  saved : ℕ
  next_ms : Option ℚ
  names : List ℕ
  events : List Ev
  deriving Repr, DecidableEq

/-- How the software loop ended. -/
inductive SwExit where
  | normal
  | canceled
  | writeError
  deriving Repr, DecidableEq

/-- The cooperative cancel flag, observed at the head of iteration `iter`
(0-based): `cancelAt = some c` means the flag is first seen set at check
number `c`. -/
def cancelHit (cancelAt : Option ℕ) (iter : ℕ) : Bool :=
  match cancelAt with
  | some c => decide (c ≤ iter)
  | none => false

/-- src/app.py:770-772: stop once the frame-index estimate reaches the end
limit. -/
def hitEndFrames (p : SwParams) (fi : ℕ) : Bool :=
  match endLimitFrames p with
  | some lim => decide (lim ≤ (fi : ℤ))
  | none => false

/-- src/app.py:773-779: stop once the decoded timestamp passes the end limit
(`pos_ms` is falsy when `None` or `0.0`). -/
def hitEndMs (p : SwParams) (f : SwFrame) : Bool :=
  match endLimitMs p, f.pos_ms with
  | some lim, some pos => decide (pos ≠ 0 ∧ lim < pos)
  | _, _ => false

/-- src/app.py:784-793: the observed decoded position for the sampling
decision: the read timestamp, with a frame-index estimate as fallback when
the read raised and an effective fps is known. -/
def posWithFallback (p : SwParams) (fi : ℕ) (f : SwFrame) : Option ℚ :=
  match f.pos_ms with
  | some v => some v
  | none =>
    match p.fps_eff with
    | some fe => if fe = 0 then none else some (((fi : ℚ) - 1) * (1000 / fe))
    | none => none

/-- src/app.py:781-802: the per-frame save decision; returns the decision and
the updated `next_ms`.  In the time-based branch a missing `next_ms` is
re-anchored to the observed timestamp (src/app.py:794-795), and a save
advances the schedule by `T` seconds. -/
def sampleDecision (p : SwParams) (st : SwState) (fi : ℕ) (f : SwFrame) :
    Bool × Option ℚ :=
  if 0 < p.sample_every_t then
    let next1 : Option ℚ :=
      match st.next_ms, posWithFallback p fi f with
      | none, some pv => some pv
      | nm, _ => nm
    match posWithFallback p fi f, next1 with
    | some pv, some nm =>
      if nm ≤ pv + 1 / 1000 then (true, some (nm + p.sample_every_t * 1000))
      else (false, next1)
    | _, _ => (false, next1)
  else if 1 < p.sample_every_n then
    (decide (((fi : ℤ) - 1) % p.sample_every_n = 0), st.next_ms)
  else (true, st.next_ms)

/-- src/app.py:811-816: throttled progress emission after each source frame
(every 10 saved frames, and always when the plan is reached). -/
def progressEmit (p : SwParams) (saved : ℕ) : List Ev :=
  if 0 < p.frames_planned then
    if saved % 10 = 0 ∨ (saved : ℤ) = p.frames_planned then
      [Ev.progress (saved : ℤ) p.frames_planned]
    else []
  else if saved % 10 = 0 then [Ev.progress (saved : ℤ) 0] else []

/-- src/app.py:764-817: the per-frame software loop.  `frames` are the
remaining frames `cap.read()` will deliver, `iter` counts cancel checks
(the `while not self._cancel` head; an empty read breaks the loop). -/
def swLoop (p : SwParams) (cancelAt : Option ℕ) :
    List SwFrame → ℕ → SwState → SwState × SwExit
  | [], iter, st =>
    if cancelHit cancelAt iter then (st, .canceled) else (st, .normal)
  | f :: rest, iter, st =>
    if cancelHit cancelAt iter then (st, .canceled)
    else if hitEndFrames p (st.frame_index + 1) then
      ({ st with frame_index := st.frame_index + 1 }, .normal)
    else if hitEndMs p f then
      ({ st with frame_index := st.frame_index + 1 }, .normal)
    else if (sampleDecision p st (st.frame_index + 1) f).1 && !f.write_ok then
      ({ st with
          frame_index := st.frame_index + 1
          next_ms := (sampleDecision p st (st.frame_index + 1) f).2 }, .writeError)
    else
      swLoop p cancelAt rest (iter + 1)
        { frame_index := st.frame_index + 1,
          saved := if (sampleDecision p st (st.frame_index + 1) f).1 then
            st.saved + 1 else st.saved,
          next_ms := (sampleDecision p st (st.frame_index + 1) f).2,
          names := if (sampleDecision p st (st.frame_index + 1) f).1 then
            st.names ++ [st.saved + 1] else st.names,
          events := st.events ++ progressEmit p
            (if (sampleDecision p st (st.frame_index + 1) f).1 then
              st.saved + 1 else st.saved) }

/-- The sampling decision with the re-anchoring assignment of
src/app.py:794-795 removed: `next_ms` is never re-seeded from the observed
timestamp.  Used to show that assignment is unreachable when time-based
sampling is active. -/
def sampleDecisionNoAnchor (p : SwParams) (st : SwState) (fi : ℕ)
    (f : SwFrame) : Bool × Option ℚ :=
  if 0 < p.sample_every_t then
    match posWithFallback p fi f, st.next_ms with
    | some pv, some nm =>
      if nm ≤ pv + 1 / 1000 then (true, some (nm + p.sample_every_t * 1000))
      else (false, st.next_ms)
    | _, _ => (false, st.next_ms)
  else if 1 < p.sample_every_n then
    (decide (((fi : ℤ) - 1) % p.sample_every_n = 0), st.next_ms)
  else (true, st.next_ms)

/-- `swLoop` with `sampleDecisionNoAnchor` in place of `sampleDecision`. -/
def swLoopNoAnchor (p : SwParams) (cancelAt : Option ℕ) :
    List SwFrame → ℕ → SwState → SwState × SwExit
  | [], iter, st =>
    if cancelHit cancelAt iter then (st, .canceled) else (st, .normal)
  | f :: rest, iter, st =>
    if cancelHit cancelAt iter then (st, .canceled)
    else if hitEndFrames p (st.frame_index + 1) then
      ({ st with frame_index := st.frame_index + 1 }, .normal)
    else if hitEndMs p f then
      ({ st with frame_index := st.frame_index + 1 }, .normal)
    else if (sampleDecisionNoAnchor p st (st.frame_index + 1) f).1 && !f.write_ok then
      ({ st with
          frame_index := st.frame_index + 1
          next_ms := (sampleDecisionNoAnchor p st (st.frame_index + 1) f).2 },
        .writeError)
    else
      swLoopNoAnchor p cancelAt rest (iter + 1)
        { frame_index := st.frame_index + 1,
          saved := if (sampleDecisionNoAnchor p st (st.frame_index + 1) f).1 then
            st.saved + 1 else st.saved,
          next_ms := (sampleDecisionNoAnchor p st (st.frame_index + 1) f).2,
          names := if (sampleDecisionNoAnchor p st (st.frame_index + 1) f).1 then
            st.names ++ [st.saved + 1] else st.names,
          events := st.events ++ progressEmit p
            (if (sampleDecisionNoAnchor p st (st.frame_index + 1) f).1 then
              st.saved + 1 else st.saved) }

/-- State of the software loop on entry (src/app.py:728-762), including the
"Starting extraction…" message and the initial progress emission, which uses
`frames_in_range` (not `frames_planned`). -/
def initSwState (p : SwParams) : SwState :=
  { frame_index := 0, saved := 0, next_ms := initNextMs p, names := [],
    events := [Ev.msg .starting,
      if 0 < p.frames_in_range then Ev.progress 0 p.frames_in_range
      else Ev.progress 0 0] }

/-- src/app.py:707-830: the whole software-backend path: open the capture
(raising → the outer handler emits `error`), run the loop, then emit the
terminal events. -/
def swRun (p : SwParams) (cancelAt : Option ℕ) (capOpened : Bool)
    (frames : List SwFrame) : List Ev :=
  if capOpened = false then [Ev.error]
  else
    let r := swLoop p cancelAt frames 0 (initSwState p)
    match r.2 with
    | .canceled =>
      r.1.events ++ [Ev.msg .canceledByUser, Ev.finished false true (r.1.saved : ℤ)]
    | .writeError => r.1.events ++ [Ev.error]
    | .normal =>
      r.1.events ++
        (if 0 < p.frames_planned then
          [Ev.progress (min (r.1.saved : ℤ) p.frames_planned) p.frames_planned]
        else []) ++ [Ev.msg .done, Ev.finished true false (r.1.saved : ℤ)]

/-- The observable behaviour of the FFmpeg NVDEC process: its parsed stdout
(`some k` for a `frame=k` line, `none` for any other or unparsable line),
its exit code, and the number of `frame_*` files in the output directory
when globbed for reconciliation. -/
structure HwProc where
  lines : List (Option ℤ)
  returncode : ℤ
  diskCount : ℕ
  deriving Repr, DecidableEq

/-- Outcome of `_run_ffmpeg_nvdec` as `run` observes it. -/
inductive HwResult where
  | canceled (saved : ℤ)
  | ok (saved : ℤ)
  | failed
  deriving Repr, DecidableEq

/-- src/app.py:534-554: the stdout loop — each `frame=k` line overwrites
`saved` and emits a progress event clamped to the planned total. -/
def hwLineEvents (total : ℤ) : List (Option ℤ) → ℤ → List Ev × ℤ
  | [], saved => ([], saved)
  | none :: rest, saved => hwLineEvents total rest saved
  | some k :: rest, _saved =>
    let ev := if 0 < total then Ev.progress (min k total) total else Ev.progress k 0
    let r := hwLineEvents total rest k
    (ev :: r.1, r.2)

/-- src/app.py:457-592: `_run_ffmpeg_nvdec`.  On cancellation the saved count
is reconciled by counting the files on disk; a non-zero exit raises (=
`failed`); a zero running counter on success also falls back to the disk
count. -/
def hwProcessed (proc : HwProc) (cancelAt : Option ℕ) : List (Option ℤ) :=
  match cancelAt with
  | some c => proc.lines.take c
  | none => proc.lines

def hwRun (total : ℤ) (proc : HwProc) (cancelAt : Option ℕ) :
    List Ev × HwResult :=
  let ev0 : List Ev := [Ev.msg .usingNvdec,
    if 0 < total then Ev.progress 0 total else Ev.progress 0 0]
  let lr := hwLineEvents total (hwProcessed proc cancelAt) 0
  if cancelAt.isSome then (ev0 ++ lr.1, .canceled (proc.diskCount : ℤ))
  else if proc.returncode ≠ 0 then (ev0 ++ lr.1, .failed)
  else (ev0 ++ lr.1, .ok (if lr.2 = 0 then (proc.diskCount : ℤ) else lr.2))

/-- All the external observations one `FrameExtractorWorker.run` call makes,
gathered as one input record. -/
structure RunInputs where
  fileExists : Bool
  meta : Meta
  precise : ℕ
  cvCount : Option ℤ
  capFps : Option ℚ
  hwAvailable : Bool
  hwProc : HwProc
  hwCancelAt : Option ℕ
  capOpened : Bool
  frames : List SwFrame
  swCancelAt : Option ℕ
  deriving Repr, DecidableEq

/-- The `SwParams` the run builds for the software path (src/app.py:604-762). -/
def swParamsOf (w : WorkerConfig) (inp : RunInputs) : SwParams :=
  let total := totalFull w inp.meta inp.precise
  let fir := framesInRange w inp.meta total inp.cvCount
  { sample_every_t := w.sample_every_t
    sample_every_n := w.sample_every_n
    start_time := w.start_time
    end_time := w.end_time
    fps_eff := fpsEff inp.meta.fps inp.capFps
    frames_planned := framesPlanned w inp.meta fir
    frames_in_range := fir }

/-- Final state and exit kind of the software loop for a run. -/
def swResult (w : WorkerConfig) (inp : RunInputs) : SwState × SwExit :=
  swLoop (swParamsOf w inp) inp.swCancelAt inp.frames 0
    (initSwState (swParamsOf w inp))

/-- The events of the software-backend section of a run. -/
def swEvents (w : WorkerConfig) (inp : RunInputs) : List Ev :=
  swRun (swParamsOf w inp) inp.swCancelAt inp.capOpened inp.frames

/-- src/app.py:594-847: `FrameExtractorWorker.run` as the ordered list of
emitted signals: validation, probing, planning, the NVDEC path when
available (with fallback to the software path on failure), else the
software path directly. -/
def runTrace (w : WorkerConfig) (inp : RunInputs) : List Ev :=
  if inp.fileExists = false then [Ev.error]
  else
    let p := swParamsOf w inp
    if inp.hwAvailable then
      let hwTotal : ℤ := if p.frames_planned = 0 then 0 else p.frames_planned
      let hr := hwRun hwTotal inp.hwProc inp.hwCancelAt
      match hr.2 with
      | .canceled saved =>
        hr.1 ++ [Ev.msg .canceledByUser, Ev.finished false true saved]
      | .ok saved =>
        hr.1 ++
          (if 0 < p.frames_planned then
            [Ev.progress (min saved p.frames_planned) p.frames_planned]
          else []) ++ [Ev.msg .done, Ev.finished true false saved]
      | .failed => hr.1 ++ [Ev.msg .fallback] ++ swEvents w inp
    else swEvents w inp

/-- src/frame_extractor_app.py:509-655: the saving loop of
`_threaded_start_processing` in the second application variant.  Each list
element is the `cv2.imwrite` success flag of one decoded frame; `existsAt`
is `os.path.exists` on the candidate filename index.  Returns
`(saved_count, filename indices in saved order)`. -/
def feaLoop (interval : ℕ) (skipExisting : Bool) (existsAt : ℕ → Bool)
    (cancelAt : Option ℕ) : List Bool → ℕ → ℕ → List ℕ → ℕ × List ℕ
  | [], _, saved, names => (saved, names)
  | wok :: rest, fi, saved, names =>
    if cancelHit cancelAt fi then (saved, names)
    else if fi % max interval 1 = 0 then
      if skipExisting && existsAt (if skipExisting then fi else saved) then
        feaLoop interval skipExisting existsAt cancelAt rest (fi + 1) saved names
      else if wok then
        feaLoop interval skipExisting existsAt cancelAt rest (fi + 1) (saved + 1)
          (names ++ [if skipExisting then fi else saved])
      else (saved, names)
    else feaLoop interval skipExisting existsAt cancelAt rest (fi + 1) saved names

/-- src/app.py:1756-1757: a negative parsed start time is clamped to `0`. -/
def adjStart (start_s : Option ℚ) : Option ℚ :=
  match start_s with
  | some s => if s < 0 then some 0 else some s
  | none => none

/-- src/app.py:1758: the UI rejects the range when both times are present
and `end_s <= start_s`. -/
def windowReject (end_s s1 : Option ℚ) : Bool :=
  match end_s, s1 with
  | some e, some s => decide (e ≤ s)
  | _, _ => false

/-- src/app.py:1765-1766: the UI rejects a start at or beyond the known
duration. -/
def startReject (s1 : Option ℚ) (d : ℚ) : Bool :=
  match s1 with
  | some s => decide (d ≤ s)
  | none => false

/-- src/app.py:1768-1769: an end time beyond the known duration is clamped
to the duration. -/
def clampEnd (end_s : Option ℚ) (d : ℚ) : Option ℚ :=
  match end_s with
  | some e => if d < e then some d else some e
  | none => none

/-- src/app.py:1753-1769 (`MainWindow.on_start`): UI-boundary validation of
the parsed time range.  Returns `none` when the request is rejected with a
message box, otherwise the (possibly clamped) `(start_s, end_s)` handed to
the worker. -/
def onStartWindow (start_s end_s duration : Option ℚ) :
    Option (Option ℚ × Option ℚ) :=
  let s1 := adjStart start_s
  if windowReject end_s s1 then none
  else
    match duration with
    | none => some (s1, end_s)
    | some d =>
      if startReject s1 d then none
      else some (s1, clampEnd end_s d)

/-! ## Helper lemmas -/

theorem pyround_intCast (n : ℤ) : pyround ((n : ℤ) : ℚ) = n := by
  unfold pyround
  simp only [Int.floor_intCast, sub_self]
  norm_num

theorem endS_lt {w : WorkerConfig} {e : ℚ} (h : endS w = some e) :
    startS w < e := by
  unfold endS at h
  split at h
  next =>
    split at h
    next hlt => injection h with h2; exact h2 ▸ hlt
    next => exact absurd h (by simp)
  next => exact absurd h (by simp)

theorem firWith_eq_clamped (w : WorkerConfig) (fps : ℚ) (total : ℤ)
    (htot : 0 < total) :
    firWith w fps total =
      max 0 ((match endS w with
        | some e => min (pyround (e * fps)) total
        | none => total) - startFrame w fps) := by
  simp only [firWith]
  cases hE : endS w with
  | some e => rw [if_pos htot]
  | none => rw [if_pos htot, min_self]

/-! ## Claim C1 -/

/-- C1: with a known positive frame rate, a set time window, a known
positive total frame count and the software (OpenCV) count agreeing with
it, the planned frames-in-range equals `max(0, endFrame - startFrame)`,
with `startFrame = round(start*rate)` clamped below at 0 and
`endFrame = round(end*rate)` clamped above to the total (the total itself
when no end time is set); with an unknown frame rate the worker falls back
to the full total, or to the software-counted total when the full total is
itself unknown. -/
theorem C1_frames_in_range (w : WorkerConfig) (meta : Meta) (total : ℕ)
    (r : ℚ) (hfps : meta.fps = some r) (hr : 0 < r)
    (hwin : w.start_time.isSome ∨ (endS w).isSome) (htot : 0 < total) :
    (framesInRange w meta total (some (total : ℤ)) =
      max 0 ((match endS w with
        | some e => min (pyround (e * r)) (total : ℤ)
        | none => (total : ℤ)) - startFrame w r)) ∧
    (∀ (meta2 : Meta) (cv : Option ℤ), meta2.fps = none →
      framesInRange w meta2 total cv = (total : ℤ)) ∧
    (∀ (meta2 : Meta) (cv : ℤ), meta2.fps = none → 0 < cv →
      framesInRange w meta2 0 (some cv) = cv) := by
  have htotZ : (0 : ℤ) < (total : ℤ) := by exact_mod_cast htot
  have hcond : (w.start_time.isSome = true ∨ (endS w).isSome = true) ∧ r ≠ 0 :=
    ⟨hwin, ne_of_gt hr⟩
  refine ⟨?_, ?_, ?_⟩
  · simp only [framesInRange, hfps]
    rw [if_pos hcond, if_pos htotZ, ite_self, firWith_eq_clamped w r _ htotZ]
  · intro meta2 cv hnone
    simp only [framesInRange, hnone]
    rw [if_neg (not_le.mpr htotZ)]
  · intro meta2 cv hnone hcv
    simp only [framesInRange, hnone, Nat.cast_zero]
    rw [if_pos le_rfl, if_pos hcv]

/-- C1 witness: the spec scenario — 300 frames at 30 fps, window `[2,5)`,
frames-in-range `round(5*30) - round(2*30) = 90`. -/
theorem C1_witness :
    framesInRange (initWorker (some 2) (some 5) false "png" 90 1 0)
      ⟨300, some 10, some 30⟩ 300 (some ((300 : ℕ) : ℤ)) = 90 := by
  have h := (C1_frames_in_range (initWorker (some 2) (some 5) false "png" 90 1 0)
    ⟨300, some 10, some 30⟩ 300 30 rfl (by norm_num) (Or.inl rfl) (by norm_num)).1
  have hE : endS (initWorker (some 2) (some 5) false "png" 90 1 0) = some 5 := rfl
  have h150 : pyround ((5 : ℚ) * 30) = 150 := by
    rw [show ((5 : ℚ) * 30) = ((150 : ℤ) : ℚ) by norm_num, pyround_intCast]
  have hsf : startFrame (initWorker (some 2) (some 5) false "png" 90 1 0) 30 = 60 := by
    unfold startFrame
    rw [show startS (initWorker (some 2) (some 5) false "png" 90 1 0) = 2 from rfl,
      show ((2 : ℚ) * 30) = ((60 : ℤ) : ℚ) by norm_num, pyround_intCast]
    decide
  rw [h, hE]
  simp only [h150, hsf]
  decide

/-! ## Claim C2 -/

/-- C2: with time-based sampling off, every-N sampling plans
`ceil(framesInRange / N)` output frames for every `framesInRange ≥ 0` and
`N ≥ 1`; in particular `N = 1` plans exactly `framesInRange`. -/
theorem C2_every_n_ceil (w : WorkerConfig) (meta : Meta) (fir : ℤ)
    (hfir : 0 ≤ fir) (hn : 1 ≤ w.sample_every_n) (ht : w.sample_every_t = 0) :
    framesPlanned w meta fir = ⌈(fir : ℚ) / (w.sample_every_n : ℚ)⌉ ∧
    (w.sample_every_n = 1 → framesPlanned w meta fir = fir) := by
  have hmain : framesPlanned w meta fir = ⌈(fir : ℚ) / (w.sample_every_n : ℚ)⌉ := by
    simp only [framesPlanned, ht]
    rw [if_neg (lt_irrefl (0 : ℚ))]
    by_cases hcase : 1 < w.sample_every_n ∧ 0 < fir
    · rw [if_pos hcase]
    · rw [if_neg hcase]
      rcases not_and_or.mp hcase with hn1 | hf0
      · have h1 : w.sample_every_n = 1 := le_antisymm (not_lt.mp hn1) hn
        rw [h1]; simp
      · have h0 : fir = 0 := le_antisymm (not_lt.mp hf0) hfir
        rw [h0]; simp
  refine ⟨hmain, fun h1 => ?_⟩
  rw [hmain, h1]; simp

/-- C2 witness: `framesInRange = 7`, `N = 2` plans `ceil(7/2) = 4`. -/
theorem C2_witness :
    framesPlanned ⟨none, none, false, "png", 90, 2, 0⟩ ⟨0, none, none⟩ 7 = 4 := by
  have h := (C2_every_n_ceil ⟨none, none, false, "png", 90, 2, 0⟩ ⟨0, none, none⟩ 7
    (by norm_num) (by norm_num) rfl).1
  have h2 : ((⟨none, none, false, "png", 90, 2, 0⟩ : WorkerConfig).sample_every_n : ℚ)
      = 2 := by norm_num
  rw [h, h2, show ((7 : ℤ) : ℚ) = 7 by norm_num, Int.ceil_eq_iff]
  norm_num

/-! ## Claim C3 -/

/-- C3 counterexample: with `everyT = 1`, `start = 5` seconds, no end time
and a known duration of exactly 5 seconds, the code plans `0` frames
(src/app.py:660-667 requires a positive window duration), while the claim's
formula `floor(windowDuration / T) + 1` with
`windowDuration = totalDuration - startSeconds = 0` gives `1`. -/
theorem C3_counterexample :
    framesPlanned (initWorker (some 5) none false "png" 90 1 1)
      ⟨150, some 5, some 30⟩ 150 = 0 ∧
    (⌊(((5 : ℚ) - 5) / 1 : ℚ)⌋ + 1 : ℤ) = 1 ∧ (0 : ℤ) ≠ 1 := by
  refine ⟨?_, by norm_num, by norm_num⟩
  have ht : (0 : ℚ) < (initWorker (some 5) none false "png" 90 1 1).sample_every_t := by
    norm_num [initWorker]
  have hE : endS (initWorker (some 5) none false "png" 90 1 1) = none := rfl
  have hd : (⟨150, some 5, some 30⟩ : Meta).duration = some 5 := rfl
  have hs : startS (initWorker (some 5) none false "png" 90 1 1) = 5 := rfl
  simp only [framesPlanned, hE, hd]
  rw [if_pos ht, hs]
  norm_num

/-- C3 (amended): whenever `everyT > 0`, time-based sampling takes
precedence over every-N sampling (the plan is independent of `everyNthFrame`
and of `framesInRange`), and `framesPlanned = floor(windowDuration / T) + 1`
where `windowDuration = endSeconds - startSeconds` when the end time is
known and `totalDuration - startSeconds` otherwise — provided that window
duration is positive; the plan is `0` (unknown) when the duration is
entirely unknown, and also `0` when the start lies at or beyond the known
duration. -/
theorem C3_every_t_planning (w : WorkerConfig) (meta : Meta)
    (ht : 0 < w.sample_every_t) :
    (∀ (n2 fir fir2 : ℤ),
      framesPlanned { w with sample_every_n := n2 } meta fir =
        framesPlanned w meta fir2) ∧
    (∀ (e : ℚ) (fir : ℤ), endS w = some e →
      framesPlanned w meta fir = ⌊(e - startS w) / w.sample_every_t⌋ + 1) ∧
    (∀ (d : ℚ) (fir : ℤ), endS w = none → meta.duration = some d →
      startS w < d →
      framesPlanned w meta fir = ⌊(d - startS w) / w.sample_every_t⌋ + 1) ∧
    (∀ (d : ℚ) (fir : ℤ), endS w = none → meta.duration = some d →
      d ≤ startS w → framesPlanned w meta fir = 0) ∧
    (endS w = none → meta.duration = none →
      ∀ fir : ℤ, framesPlanned w meta fir = 0) := by
  refine ⟨?_, ?_, ?_, ?_, ?_⟩
  · intro n2 fir fir2
    have h1 : ({ w with sample_every_n := n2 } : WorkerConfig).sample_every_t
        = w.sample_every_t := rfl
    have h2 : endS { w with sample_every_n := n2 } = endS w := rfl
    have h3 : startS { w with sample_every_n := n2 } = startS w := rfl
    simp only [framesPlanned, h1, h2, h3]
    rw [if_pos ht, if_pos ht]
  · intro e fir hE
    have hpos : (0 : ℚ) < e - startS w := sub_pos.mpr (endS_lt hE)
    have hfl : (0 : ℤ) ≤ ⌊(e - startS w) / w.sample_every_t⌋ :=
      Int.floor_nonneg.mpr (div_nonneg hpos.le ht.le)
    simp only [framesPlanned, hE]
    rw [if_pos ht, max_eq_right hpos.le, if_pos hpos,
      max_eq_right (by omega : (1 : ℤ) ≤ ⌊(e - startS w) / w.sample_every_t⌋ + 1)]
  · intro d fir hE hdur hlt
    have hpos : (0 : ℚ) < d - startS w := sub_pos.mpr hlt
    have hfl : (0 : ℤ) ≤ ⌊(d - startS w) / w.sample_every_t⌋ :=
      Int.floor_nonneg.mpr (div_nonneg hpos.le ht.le)
    simp only [framesPlanned, hE, hdur]
    rw [if_pos ht, max_eq_right hpos.le, if_pos hpos,
      max_eq_right (by omega : (1 : ℤ) ≤ ⌊(d - startS w) / w.sample_every_t⌋ + 1)]
  · intro d fir hE hdur hle
    simp only [framesPlanned, hE, hdur]
    rw [if_pos ht, max_eq_left (sub_nonpos.mpr hle), if_neg (lt_irrefl (0 : ℚ))]
  · intro hE hdur fir
    simp only [framesPlanned, hE, hdur]
    rw [if_pos ht]

/-- C3 witness: the spec scenario — `everyT = 0.5` seconds over a 10-second
video with no explicit end gives `floor(10 / 0.5) + 1 = 21` planned frames. -/
theorem C3_witness :
    framesPlanned ⟨none, none, false, "png", 90, 1, 1/2⟩ ⟨0, some 10, none⟩ 0 = 21 := by
  have h := (C3_every_t_planning ⟨none, none, false, "png", 90, 1, 1/2⟩
    ⟨0, some 10, none⟩ (by norm_num)).2.2.1 10 0 rfl rfl (by norm_num [startS])
  rw [h, show ((10 : ℚ) - startS ⟨none, none, false, "png", 90, 1, 1/2⟩) /
        (⟨none, none, false, "png", 90, 1, 1/2⟩ : WorkerConfig).sample_every_t
      = ((20 : ℤ) : ℚ) by norm_num [startS], Int.floor_intCast]
  norm_num

/-! ## Claim C4 -/

/-- C4 counterexample: a worker constructed with `end = 3 ≤ start = 5`
does not reject the request — `endS` silently becomes `none` and the run
completes successfully with no validation error emitted. -/
theorem C4_counterexample :
    endS (initWorker (some 5) (some 3) false "png" 90 1 0) = none ∧
    Ev.error ∉ runTrace (initWorker (some 5) (some 3) false "png" 90 1 0)
      ⟨true, ⟨0, none, none⟩, 0, none, none, false, ⟨[], 0, 0⟩, none, true, [], none⟩ ∧
    Ev.finished true false 0 ∈ runTrace (initWorker (some 5) (some 3) false "png" 90 1 0)
      ⟨true, ⟨0, none, none⟩, 0, none, none, false, ⟨[], 0, 0⟩, none, true, [], none⟩ := by
  decide

/-- C4 (amended): invalid windows (`end ≤ start`) are rejected with a
validation error at the UI boundary (`MainWindow.on_start`), before any
worker starts; the engine itself silently treats such an end time as "no
end bound": `endS` is `none` and the software loop applies no
end-of-window limit. -/
theorem C4_ui_rejects_engine_drops (s e : ℚ) (dur : Option ℚ)
    (hs : 0 ≤ s) (he : e ≤ s) :
    onStartWindow (some s) (some e) dur = none ∧
    ∀ (w : WorkerConfig) (inp : RunInputs), w.start_time = some s →
      w.end_time = some e →
      endS w = none ∧ endLimitFrames (swParamsOf w inp) = none ∧
        endLimitMs (swParamsOf w inp) = none := by
  constructor
  · have hadj : adjStart (some s) = some s := by
      simp [adjStart, not_lt.mpr hs]
    have hrej : windowReject (some e) (some s) = true := by
      simp [windowReject, he]
    simp only [onStartWindow, hadj, hrej, if_true]
  · intro w inp hst hend
    have hstS : startS w = s := by simp [startS, hst]
    have hnlt : ¬ startS w < e := not_lt.mpr (hstS ▸ he)
    refine ⟨?_, ?_, ?_⟩
    · simp only [endS, hend]
      rw [if_neg hnlt]
    · have hp1 : (swParamsOf w inp).end_time = some e := by
        simp [swParamsOf, hend]
      have hp2 : (swParamsOf w inp).start_time = some s := by
        simp [swParamsOf, hst]
      simp only [endLimitFrames, hp1, hp2]
      rw [if_neg]
      intro hc
      exact absurd hc.2 (by simpa using hnlt.imp fun h => hstS ▸ h)
    · have hp1 : (swParamsOf w inp).end_time = some e := by
        simp [swParamsOf, hend]
      have hp2 : (swParamsOf w inp).start_time = some s := by
        simp [swParamsOf, hst]
      simp only [endLimitMs, hp1, hp2]
      rw [if_neg]
      intro hc
      exact absurd hc.2 (by simpa using hnlt.imp fun h => hstS ▸ h)

/-- C4 witness for the amended claim, at `start = 5`, `end = 3`. -/
theorem C4_witness :
    onStartWindow (some 5) (some 3) none = none ∧
    endS (initWorker (some 5) (some 3) true "jpeg" 80 2 0) = none := by
  have h := C4_ui_rejects_engine_drops 5 3 none (by norm_num) (by norm_num)
  exact ⟨h.1, (h.2 (initWorker (some 5) (some 3) true "jpeg" 80 2 0)
    ⟨true, ⟨0, none, none⟩, 0, none, none, false, ⟨[], 0, 0⟩, none, true, [], none⟩
    rfl rfl).1⟩

/-! ## Claim C6 -/

/-- C6: the allocator returns `<stem>_frames` when that name does not yet
exist, otherwise the first of `<stem>_frames_1`, `_frames_2`, … that does
not exist; it never returns a pre-existing directory (so prior contents
are never reused or overwritten), and a second allocation after the first
directory has been created never returns the same path. -/
theorem C6_allocator (fs : List String) (stem : String) :
    (allocCandidate stem 0 ∉ fs → allocate fs stem = stem ++ "_frames") ∧
    (∃ m, allocate fs stem = allocCandidate stem m ∧
      allocCandidate stem m ∉ fs ∧ ∀ i, i < m → allocCandidate stem i ∈ fs) ∧
    allocate fs stem ∉ fs ∧
    allocate (allocate fs stem :: fs) stem ≠ allocate fs stem := by
  refine ⟨?_, allocate_spec fs stem, allocate_not_mem fs stem, ?_⟩
  · intro h0
    obtain ⟨m, hm1, _, hm3⟩ := allocate_spec fs stem
    match m, hm1 with
    | 0, hm1 => exact hm1
    | m + 1, hm1 => exact absurd (hm3 0 (Nat.succ_pos m)) h0
  · intro heq
    have h2 := allocate_not_mem (allocate fs stem :: fs) stem
    rw [heq] at h2
    exact h2 (List.mem_cons_self _ _)

/-- C6 witness: concrete allocations for base name `vid`. -/
theorem C6_witness :
    allocate [] "vid" = "vid" ++ "_frames" ∧
    allocate [allocate [] "vid"] "vid" ≠ allocate [] "vid" := by
  have h1 := (C6_allocator [] "vid").1 (by simp)
  have h2 := (C6_allocator [] "vid").2.2.2
  exact ⟨h1, h2⟩

/-! ## Claim C10 -/

/-- C10: for every combination of raw constructor inputs the constructed
worker satisfies the invariant: `out_format` is exactly `"png"` or `"jpeg"`
(any format string other than `png`/`jpg`/`jpeg` normalises to `"png"`),
`jpeg_quality` lies in `[1, 100]`, `sample_every_n ≥ 1` and
`sample_every_t ≥ 0`; these normalised fields are what every later planning
and decoding step reads. -/
theorem C10_init_invariants (start_time end_time : Option ℚ)
    (precision_count : Bool) (fmt : String) (q n : ℤ) (t : ℚ) :
    ((initWorker start_time end_time precision_count fmt q n t).out_format = "png" ∨
      (initWorker start_time end_time precision_count fmt q n t).out_format = "jpeg") ∧
    1 ≤ (initWorker start_time end_time precision_count fmt q n t).jpeg_quality ∧
    (initWorker start_time end_time precision_count fmt q n t).jpeg_quality ≤ 100 ∧
    1 ≤ (initWorker start_time end_time precision_count fmt q n t).sample_every_n ∧
    0 ≤ (initWorker start_time end_time precision_count fmt q n t).sample_every_t ∧
    (strLower (strStrip (if fmt = "" then "png" else fmt)) ≠ "jpg" →
      strLower (strStrip (if fmt = "" then "png" else fmt)) ≠ "jpeg" →
      strLower (strStrip (if fmt = "" then "png" else fmt)) ≠ "png" →
      (initWorker start_time end_time precision_count fmt q n t).out_format = "png") := by
  refine ⟨?_, le_max_left _ _, max_le (by norm_num) (min_le_left _ _),
    le_max_left _ _, le_max_left _ _, ?_⟩
  · show normalizeFormat fmt = "png" ∨ normalizeFormat fmt = "jpeg"
    simp only [normalizeFormat]
    by_cases h1 : strLower (strStrip (if fmt = "" then "png" else fmt)) = "jpg" ∨
        strLower (strStrip (if fmt = "" then "png" else fmt)) = "jpeg"
    · rw [if_pos h1]; exact Or.inr rfl
    · rw [if_neg h1]
      by_cases h2 : strLower (strStrip (if fmt = "" then "png" else fmt)) ≠ "png"
      · rw [if_pos h2]; exact Or.inl rfl
      · rw [if_neg h2]; exact Or.inl (not_ne_iff.mp h2)
  · intro h1 h2 h3
    show normalizeFormat fmt = "png"
    simp only [normalizeFormat]
    rw [if_neg, if_pos h3]
    rintro (h | h)
    · exact h1 h
    · exact h2 h

/-- C10 witness: an unrecognised format, an out-of-range quality and
out-of-range sampling parameters all normalise. -/
theorem C10_witness :
    (initWorker none none false "WebP" 150 0 (-2)).out_format = "png" ∧
    1 ≤ (initWorker none none false "WebP" 150 0 (-2)).jpeg_quality ∧
    (initWorker none none false "WebP" 150 0 (-2)).jpeg_quality ≤ 100 ∧
    1 ≤ (initWorker none none false "WebP" 150 0 (-2)).sample_every_n ∧
    0 ≤ (initWorker none none false "WebP" 150 0 (-2)).sample_every_t := by
  have h := C10_init_invariants none none false "WebP" 150 0 (-2)
  exact ⟨h.2.2.2.2.2 (by decide) (by decide) (by decide),
    h.2.1, h.2.2.1, h.2.2.2.1, h.2.2.2.2.1⟩

/-! ## Claim C5 -/

theorem swLoop_names (p : SwParams) (cancelAt : Option ℕ) :
    ∀ (frames : List SwFrame) (iter : ℕ) (st : SwState),
      st.names = List.range' 1 st.saved →
      (swLoop p cancelAt frames iter st).1.names =
        List.range' 1 (swLoop p cancelAt frames iter st).1.saved := by
  intro frames
  induction frames with
  | nil =>
    intro iter st h
    simp only [swLoop]
    split <;> exact h
  | cons f rest ih =>
    intro iter st h
    simp only [swLoop]
    split_ifs with h1 h2 h3 h4 h5
    · exact h
    · exact h
    · exact h
    · exact h
    · apply ih
      rw [h, List.range'_concat]
      simp [Nat.add_comm]
    · exact ih _ _ h

theorem feaLoop_names (interval : ℕ) (existsAt : ℕ → Bool)
    (cancelAt : Option ℕ) :
    ∀ (frames : List Bool) (fi saved : ℕ) (names : List ℕ),
      names = List.range' 0 saved →
      (feaLoop interval false existsAt cancelAt frames fi saved names).2 =
        List.range' 0
          (feaLoop interval false existsAt cancelAt frames fi saved names).1 := by
  intro frames
  induction frames with
  | nil => intro fi saved names h; simpa [feaLoop] using h
  | cons wok rest ih =>
    intro fi saved names h
    simp only [feaLoop, Bool.false_and, Bool.false_eq_true, if_false]
    split_ifs with h1 h2 h3
    · exact h
    · apply ih
      rw [h, List.range'_concat]
      simp
    · exact h
    · exact ih _ _ _ h

/-- C5 counterexample: in `frame_extractor_app.py` the k-th saved frame is
written with index `saved_count` (0-based), not 1-based — two frames with
the default options produce indices `[0, 1]`, not `[1, 2]`. -/
theorem C5_counterexample :
    (feaLoop 1 false (fun _ => false) none [true, true] 0 0 []).2 = [0, 1] ∧
    ([0, 1] : List ℕ) ≠ [1, 2] := by
  constructor
  · rfl
  · simp

/-- C5 (amended): output filename indices are always a contiguous, gapless
sequence in saved order regardless of which source frames sampling skipped:
in `app.py` the k-th saved frame is written as index `k` (1-based,
`frame_{saved+1}`), while in `frame_extractor_app.py` (with the
skip-existing option off) the k-th saved frame is written as index `k - 1`
(0-based, `saved_count`). -/
theorem C5_saved_order_naming (p : SwParams) (cancelAt : Option ℕ)
    (frames : List SwFrame) (interval : ℕ) (existsAt : ℕ → Bool)
    (feaCancelAt : Option ℕ) (feaFrames : List Bool) :
    (swLoop p cancelAt frames 0 (initSwState p)).1.names =
      List.range' 1 (swLoop p cancelAt frames 0 (initSwState p)).1.saved ∧
    (feaLoop interval false existsAt feaCancelAt feaFrames 0 0 []).2 =
      List.range' 0
        (feaLoop interval false existsAt feaCancelAt feaFrames 0 0 []).1 := by
  exact ⟨swLoop_names p cancelAt frames 0 (initSwState p) rfl,
    feaLoop_names interval existsAt feaCancelAt feaFrames 0 0 [] rfl⟩

/-! ## Claim C9 -/

/-- Modelled from the spec (§9 "open question", claim C9): the software
time-based sampling loop with its schedule anchored to the first observed
decoded timestamp — the same loop entered with no scheduled instant, so the
first frame's timestamp becomes the anchor and the schedule is
`firstTimestamp + k·T`. -/
def swLoopFirstTsAnchored (p : SwParams) (cancelAt : Option ℕ)
    (frames : List SwFrame) : SwState × SwExit :=
  swLoop p cancelAt frames 0 { initSwState p with next_ms := none }

theorem sampleDecision_no_anchor (p : SwParams) (st : SwState) (fi : ℕ)
    (f : SwFrame) (h : st.next_ms.isSome) :
    sampleDecision p st fi f = sampleDecisionNoAnchor p st fi f := by
  obtain ⟨nm, hnm⟩ := Option.isSome_iff_exists.mp h
  unfold sampleDecision sampleDecisionNoAnchor
  rw [hnm]

theorem sampleDecisionNoAnchor_isSome (p : SwParams) (st : SwState) (fi : ℕ)
    (f : SwFrame) (h : st.next_ms.isSome) :
    ((sampleDecisionNoAnchor p st fi f).2).isSome := by
  obtain ⟨nm, hnm⟩ := Option.isSome_iff_exists.mp h
  unfold sampleDecisionNoAnchor
  rw [hnm]
  split_ifs with h1 h2
  · cases hp : posWithFallback p fi f with
    | none => rfl
    | some pv =>
      show (if nm ≤ pv + 1 / 1000 then
          ((true : Bool), some (nm + p.sample_every_t * 1000))
        else ((false : Bool), some nm)).2.isSome = true
      split_ifs with hle <;> rfl
  · rfl
  · rfl

theorem swLoop_no_anchor (p : SwParams) (cancelAt : Option ℕ) :
    ∀ (frames : List SwFrame) (iter : ℕ) (st : SwState),
      st.next_ms.isSome →
      swLoop p cancelAt frames iter st = swLoopNoAnchor p cancelAt frames iter st := by
  intro frames
  induction frames with
  | nil => intro iter st h; rfl
  | cons f rest ih =>
    intro iter st h
    simp only [swLoop, swLoopNoAnchor,
      sampleDecision_no_anchor p st (st.frame_index + 1) f h]
    split_ifs
    · rfl
    · rfl
    · rfl
    · rfl
    · exact ih _ _ (sampleDecisionNoAnchor_isSome p st (st.frame_index + 1) f h)
    · exact ih _ _ (sampleDecisionNoAnchor_isSome p st (st.frame_index + 1) f h)

/-- C9 counterexample: with `T = 1` second, requested start `0` and decoded
timestamps 5000 ms, 5100 ms, 5200 ms (the first observed timestamp lags the
requested start by 5 s), the code saves all 3 frames — its schedule stays
anchored to `startSeconds` and catches up — whereas the claim's
first-timestamp-anchored schedule would save only the first frame. -/
theorem C9_counterexample :
    (swLoop ⟨1, 1, some 0, none, none, 0, 0⟩ none
      [⟨some 5000, true⟩, ⟨some 5100, true⟩, ⟨some 5200, true⟩] 0
      (initSwState ⟨1, 1, some 0, none, none, 0, 0⟩)).1.saved = 3 ∧
    (swLoopFirstTsAnchored ⟨1, 1, some 0, none, none, 0, 0⟩ none
      [⟨some 5000, true⟩, ⟨some 5100, true⟩, ⟨some 5200, true⟩]).1.saved = 1 ∧
    (3 : ℕ) ≠ 1 := by
  refine ⟨?_, ?_, by norm_num⟩
  · norm_num [swLoop, initSwState, initNextMs, cancelHit, hitEndFrames, hitEndMs,
      endLimitFrames, endLimitMs, sampleDecision, posWithFallback, progressEmit]
  · norm_num [swLoopFirstTsAnchored, swLoop, initSwState, initNextMs, cancelHit,
      hitEndFrames, hitEndMs, endLimitFrames, endLimitMs, sampleDecision,
      posWithFallback, progressEmit]

/-- C9 (amended): whenever time-based sampling is active the schedule is
anchored to `startSeconds`, not to the first observed decoded timestamp:
`next_ms` is initialised to `startSeconds·1000` (src/app.py:758-760), which
makes the re-anchoring assignment at src/app.py:794-795 unreachable — the
loop behaves identically with that assignment removed — and on every save
the schedule advances by `T` from the start anchor, so a lagging first
timestamp makes the loop save consecutive frames until the schedule catches
up instead of shifting the sampling phase. -/
theorem C9_start_anchored (p : SwParams) (ht : 0 < p.sample_every_t)
    (cancelAt : Option ℕ) (frames : List SwFrame) :
    initNextMs p = some (p.start_time.getD 0 * 1000) ∧
    swLoop p cancelAt frames 0 (initSwState p) =
      swLoopNoAnchor p cancelAt frames 0 (initSwState p) := by
  constructor
  · unfold initNextMs; rw [if_pos ht]
  · apply swLoop_no_anchor
    show (initNextMs p).isSome
    unfold initNextMs
    rw [if_pos ht]
    rfl

/-! ## Claim C8 -/

theorem hwRun_snd_canceled (total : ℤ) (proc : HwProc) (c : Option ℕ)
    (h : c.isSome = true) :
    (hwRun total proc c).2 = .canceled ((proc.diskCount : ℕ) : ℤ) := by
  unfold hwRun
  rw [if_pos h]

/-- C8: every canceled run ends with a terminal `finished` event whose
`framesSaved` equals the number of image files in the output directory at
that moment: on hardware-backend cancellation the count is reconciled from
the `frame_*` files on disk (`diskCount`), and on software-backend
cancellation the saved counter — incremented exactly once per successful
write, producing pairwise-distinct filenames in the fresh directory — is
returned. -/
theorem C8_cancel_reconciliation (w : WorkerConfig) (inp : RunInputs) :
    (inp.fileExists = true → inp.hwAvailable = true →
      inp.hwCancelAt.isSome = true →
      ∃ pre, runTrace w inp = pre ++
        [Ev.msg .canceledByUser,
         Ev.finished false true ((inp.hwProc.diskCount : ℕ) : ℤ)]) ∧
    (inp.fileExists = true → inp.hwAvailable = false → inp.capOpened = true →
      (swResult w inp).2 = .canceled →
      runTrace w inp = (swResult w inp).1.events ++
        [Ev.msg .canceledByUser,
         Ev.finished false true ((swResult w inp).1.saved : ℤ)] ∧
      (swResult w inp).1.names.length = (swResult w inp).1.saved ∧
      (swResult w inp).1.names.Nodup) := by
  constructor
  · intro hfile hhw hcancel
    have hsnd := hwRun_snd_canceled
      (if (swParamsOf w inp).frames_planned = 0 then 0
        else (swParamsOf w inp).frames_planned)
      inp.hwProc inp.hwCancelAt hcancel
    simp only [runTrace, hfile, hhw]
    simp only [Bool.true_eq_false, if_false, if_true]
    rw [hsnd]
    exact ⟨_, rfl⟩
  · intro hfile hhw hcap hexit
    have hn := swLoop_names (swParamsOf w inp) inp.swCancelAt inp.frames 0
      (initSwState (swParamsOf w inp)) rfl
    refine ⟨?_, ?_, ?_⟩
    · simp only [runTrace, hfile, hhw]
      simp only [Bool.true_eq_false, Bool.false_eq_true, if_false]
      simp only [swEvents, swRun, hcap]
      simp only [Bool.true_eq_false, if_false]
      unfold swResult at hexit
      rw [hexit]
      rfl
    · unfold swResult
      unfold swResult at hn
      rw [hn, List.length_range']
    · unfold swResult
      unfold swResult at hn
      rw [hn]
      exact List.nodup_range' _ _

/-- C8 witness: a hardware-backend run canceled after one progress line,
with 7 files found on disk at reconciliation. -/
theorem C8_witness :
    ∃ pre, runTrace (initWorker none none false "png" 90 1 0)
      ⟨true, ⟨0, none, none⟩, 0, none, none, true, ⟨[some 5], 0, 7⟩, some 1,
        true, [], none⟩ = pre ++
      [Ev.msg .canceledByUser, Ev.finished false true ((7 : ℕ) : ℤ)] := by
  exact (C8_cancel_reconciliation (initWorker none none false "png" 90 1 0)
    ⟨true, ⟨0, none, none⟩, 0, none, none, true, ⟨[some 5], 0, 7⟩, some 1,
      true, [], none⟩).1 rfl rfl rfl

/-! ## Claim C7 -/

theorem hwRun_snd_failed (total : ℤ) (proc : HwProc)
    (h : proc.returncode ≠ 0) :
    (hwRun total proc none).2 = .failed := by
  unfold hwRun
  rw [if_neg (by simp), if_pos h]

theorem hwLineEvents_mem (total : ℤ) :
    ∀ (lines : List (Option ℤ)) (s : ℤ) (e : Ev),
      e ∈ (hwLineEvents total lines s).1 → ∃ a b, e = Ev.progress a b := by
  intro lines
  induction lines with
  | nil => intro s e he; simp [hwLineEvents] at he
  | cons l rest ih =>
    cases l with
    | none => intro s e he; exact ih _ _ he
    | some k =>
      intro s e he
      simp only [hwLineEvents, List.mem_cons] at he
      rcases he with he | he
      · subst he
        split_ifs
        · exact ⟨_, _, rfl⟩
        · exact ⟨_, _, rfl⟩
      · exact ih _ _ he

theorem hwRun_fst_events (total : ℤ) (proc : HwProc) (c : Option ℕ) (e : Ev)
    (he : e ∈ (hwRun total proc c).1) :
    e = Ev.msg .usingNvdec ∨ ∃ a b, e = Ev.progress a b := by
  have h1 : (hwRun total proc c).1 =
      [Ev.msg .usingNvdec,
        if 0 < total then Ev.progress 0 total else Ev.progress 0 0] ++
      (hwLineEvents total (hwProcessed proc c) 0).1 := by
    unfold hwRun
    split_ifs <;> rfl
  rw [h1] at he
  rcases List.mem_append.mp he with h | h
  · simp only [List.mem_cons, List.not_mem_nil, or_false] at h
    rcases h with rfl | rfl
    · exact Or.inl rfl
    · right
      split_ifs
      · exact ⟨_, _, rfl⟩
      · exact ⟨_, _, rfl⟩
  · exact Or.inr (hwLineEvents_mem total _ 0 e h)

theorem progressEmit_mem (p : SwParams) (saved : ℕ) (e : Ev)
    (he : e ∈ progressEmit p saved) : ∃ a b, e = Ev.progress a b := by
  unfold progressEmit at he
  split_ifs at he
  · obtain rfl := List.mem_singleton.mp he
    exact ⟨_, _, rfl⟩
  · simp at he
  · obtain rfl := List.mem_singleton.mp he
    exact ⟨_, _, rfl⟩
  · simp at he

theorem swLoop_events_mem (p : SwParams) (cancelAt : Option ℕ) :
    ∀ (frames : List SwFrame) (iter : ℕ) (st : SwState) (e : Ev),
      e ∈ (swLoop p cancelAt frames iter st).1.events →
      e ∈ st.events ∨ ∃ a b, e = Ev.progress a b := by
  intro frames
  induction frames with
  | nil =>
    intro iter st e he
    simp only [swLoop] at he
    split at he <;> exact Or.inl he
  | cons f rest ih =>
    intro iter st e he
    simp only [swLoop] at he
    split_ifs at he
    · exact Or.inl he
    · exact Or.inl he
    · exact Or.inl he
    · exact Or.inl he
    · rcases ih _ _ e he with h | h
      · rcases List.mem_append.mp h with h2 | h2
        · exact Or.inl h2
        · exact Or.inr (progressEmit_mem p _ e h2)
      · exact Or.inr h
    · rcases ih _ _ e he with h | h
      · rcases List.mem_append.mp h with h2 | h2
        · exact Or.inl h2
        · exact Or.inr (progressEmit_mem p _ e h2)
      · exact Or.inr h

theorem swLoop_exit_no_writeError (p : SwParams) (cancelAt : Option ℕ) :
    ∀ (frames : List SwFrame) (iter : ℕ) (st : SwState),
      (∀ f ∈ frames, f.write_ok = true) →
      (swLoop p cancelAt frames iter st).2 ≠ .writeError := by
  intro frames
  induction frames with
  | nil =>
    intro iter st _
    simp only [swLoop]
    split <;> simp
  | cons f rest ih =>
    intro iter st hwr
    simp only [swLoop]
    split_ifs with h1 h2 h3 h4
    · simp
    · simp
    · simp
    · exfalso
      have hok := hwr f (List.mem_cons_self f rest)
      rw [hok] at h4
      simp at h4
    · exact ih _ _ fun g hg => hwr g (List.mem_cons_of_mem f hg)
    · exact ih _ _ fun g hg => hwr g (List.mem_cons_of_mem f hg)

theorem initSwState_events_mem (p : SwParams) (e : Ev)
    (he : e ∈ (initSwState p).events) :
    e = Ev.msg .starting ∨ ∃ a b, e = Ev.progress a b := by
  simp only [initSwState, List.mem_cons, List.not_mem_nil, or_false] at he
  rcases he with rfl | rfl
  · exact Or.inl rfl
  · right
    split_ifs
    · exact ⟨_, _, rfl⟩
    · exact ⟨_, _, rfl⟩

/-- Events the software path can emit when the capture opens and every
write succeeds. -/
def benignEv (e : Ev) : Prop :=
  e = Ev.msg .starting ∨ e = Ev.msg .canceledByUser ∨ e = Ev.msg .done ∨
  (∃ a b, e = Ev.progress a b) ∨ ∃ s c k, e = Ev.finished s c k

theorem swRun_events_benign (p : SwParams) (cancelAt : Option ℕ)
    (frames : List SwFrame) (hwr : ∀ f ∈ frames, f.write_ok = true) (e : Ev)
    (he : e ∈ swRun p cancelAt true frames) : benignEv e := by
  have hloopEv := swLoop_events_mem p cancelAt frames 0 (initSwState p)
  have hfromLoop : ∀ e2 : Ev,
      e2 ∈ (swLoop p cancelAt frames 0 (initSwState p)).1.events →
      benignEv e2 := by
    intro e2 he2
    rcases hloopEv e2 he2 with h | h
    · rcases initSwState_events_mem p e2 h with h2 | h2
      · exact Or.inl h2
      · exact Or.inr (Or.inr (Or.inr (Or.inl h2)))
    · exact Or.inr (Or.inr (Or.inr (Or.inl h)))
  simp only [swRun, Bool.true_eq_false, if_false] at he
  cases hex : (swLoop p cancelAt frames 0 (initSwState p)).2 with
  | writeError => exact absurd hex (swLoop_exit_no_writeError p cancelAt frames 0 _ hwr)
  | canceled =>
    rw [hex] at he
    rcases List.mem_append.mp he with h | h
    · exact hfromLoop e h
    · simp only [List.mem_cons, List.not_mem_nil, or_false] at h
      rcases h with rfl | rfl
      · exact Or.inr (Or.inl rfl)
      · exact Or.inr (Or.inr (Or.inr (Or.inr ⟨_, _, _, rfl⟩)))
  | normal =>
    rw [hex] at he
    rcases List.mem_append.mp he with h | h
    · rcases List.mem_append.mp h with h2 | h2
      · exact hfromLoop e h2
      · right; right; right; left
        revert h2
        split_ifs
        · intro h2
          obtain rfl := List.mem_singleton.mp h2
          exact ⟨_, _, rfl⟩
        · intro h2
          simp at h2
    · simp only [List.mem_cons, List.not_mem_nil, or_false] at h
      rcases h with rfl | rfl
      · exact Or.inr (Or.inr (Or.inl rfl))
      · exact Or.inr (Or.inr (Or.inr (Or.inr ⟨_, _, _, rfl⟩)))

/-- C7: when the hardware backend is available, is not canceled, and its
process exits non-zero, the run falls back to the software backend exactly
once: the trace is the hardware events, then the user-visible fallback
notice, then the software-backend events — so the notice precedes every
software progress event, the software section never re-enters the hardware
path, and the hardware failure is never surfaced as a terminal `error`. -/
theorem C7_hw_failure_fallback (w : WorkerConfig) (inp : RunInputs)
    (hfile : inp.fileExists = true) (hhw : inp.hwAvailable = true)
    (hnc : inp.hwCancelAt = none) (hrc : inp.hwProc.returncode ≠ 0)
    (hcap : inp.capOpened = true)
    (hwr : ∀ f ∈ inp.frames, f.write_ok = true) :
    ∃ hwEvs, runTrace w inp = hwEvs ++ [Ev.msg .fallback] ++ swEvents w inp ∧
      Ev.msg .fallback ∉ hwEvs ∧
      Ev.msg .fallback ∉ swEvents w inp ∧
      Ev.msg .usingNvdec ∉ swEvents w inp ∧
      Ev.error ∉ runTrace w inp := by
  have hswEq : swEvents w inp =
      swRun (swParamsOf w inp) inp.swCancelAt true inp.frames := by
    unfold swEvents
    rw [hcap]
  have hswBenign : ∀ e ∈ swEvents w inp, benignEv e := by
    intro e he
    rw [hswEq] at he
    exact swRun_events_benign (swParamsOf w inp) inp.swCancelAt inp.frames hwr e he
  have hdecomp : runTrace w inp =
      (hwRun (if (swParamsOf w inp).frames_planned = 0 then 0
          else (swParamsOf w inp).frames_planned) inp.hwProc none).1 ++
        [Ev.msg .fallback] ++ swEvents w inp := by
    simp only [runTrace, hfile, hhw, hnc]
    simp only [Bool.true_eq_false, if_false, if_true]
    rw [hwRun_snd_failed _ _ hrc]
  refine ⟨_, hdecomp, ?_, ?_, ?_, ?_⟩
  · intro hmem
    rcases hwRun_fst_events _ _ _ _ hmem with h | ⟨a, b, h⟩ <;> simp at h
  · intro hmem
    rcases hswBenign _ hmem with h | h | h | ⟨a, b, h⟩ | ⟨s, c, k, h⟩ <;> simp at h
  · intro hmem
    rcases hswBenign _ hmem with h | h | h | ⟨a, b, h⟩ | ⟨s, c, k, h⟩ <;> simp at h
  · intro hmem
    rw [hdecomp] at hmem
    rcases List.mem_append.mp hmem with h | h
    · rcases List.mem_append.mp h with h2 | h2
      · rcases hwRun_fst_events _ _ _ _ h2 with h3 | ⟨a, b, h3⟩ <;> simp at h3
      · simp at h2
    · rcases hswBenign _ h with h3 | h3 | h3 | ⟨a, b, h3⟩ | ⟨s, c, k, h3⟩ <;>
        simp at h3

/-- C7 witness: hardware available, process exits with code 1, no
cancellation; the software path then runs on an empty frame stream. -/
theorem C7_witness :
    ∃ hwEvs, runTrace (initWorker none none false "png" 90 1 0)
        ⟨true, ⟨0, none, none⟩, 0, none, none, true, ⟨[], 1, 0⟩, none, true,
          [], none⟩ =
      hwEvs ++ [Ev.msg .fallback] ++
        swEvents (initWorker none none false "png" 90 1 0)
          ⟨true, ⟨0, none, none⟩, 0, none, none, true, ⟨[], 1, 0⟩, none, true,
            [], none⟩ ∧
      Ev.msg .fallback ∉ hwEvs ∧
      Ev.msg .fallback ∉ swEvents (initWorker none none false "png" 90 1 0)
        ⟨true, ⟨0, none, none⟩, 0, none, none, true, ⟨[], 1, 0⟩, none, true,
          [], none⟩ ∧
      Ev.msg .usingNvdec ∉ swEvents (initWorker none none false "png" 90 1 0)
        ⟨true, ⟨0, none, none⟩, 0, none, none, true, ⟨[], 1, 0⟩, none, true,
          [], none⟩ ∧
      Ev.error ∉ runTrace (initWorker none none false "png" 90 1 0)
        ⟨true, ⟨0, none, none⟩, 0, none, none, true, ⟨[], 1, 0⟩, none, true,
          [], none⟩ := by
  exact C7_hw_failure_fallback (initWorker none none false "png" 90 1 0)
    ⟨true, ⟨0, none, none⟩, 0, none, none, true, ⟨[], 1, 0⟩, none, true,
      [], none⟩ rfl rfl rfl (by norm_num) rfl (by simp)

/-- C9 witness for the amended claim at `T = 1`, `start = 3`. -/
theorem C9_witness :
    initNextMs ⟨1, 1, some 3, none, none, 0, 0⟩ = some 3000 ∧
    swLoop ⟨1, 1, some 3, none, none, 0, 0⟩ none [⟨some 4000, true⟩] 0
        (initSwState ⟨1, 1, some 3, none, none, 0, 0⟩) =
      swLoopNoAnchor ⟨1, 1, some 3, none, none, 0, 0⟩ none [⟨some 4000, true⟩] 0
        (initSwState ⟨1, 1, some 3, none, none, 0, 0⟩) := by
  have h := C9_start_anchored ⟨1, 1, some 3, none, none, 0, 0⟩ (by norm_num) none
    [⟨some 4000, true⟩]
  refine ⟨?_, h.2⟩
  rw [h.1]
  norm_num [Option.getD_some]

end Frame2IMG
